import Mathlib

/-!
Verification of the ACFP single-header INI-style configuration parser
(`ACFP.h`).  Strings are modelled as `List Char`; the `std::unordered_map`
containers are modelled as association lists with map update semantics;
machine integers are modelled as `Nat` with explicit `% 2^w` where the
source narrows them; C++ exceptions become `Except`; the one place the
source performs an out-of-bounds read (`string_view::front()` on an empty
span, undefined behaviour) is modelled as the explicit `PErr.oob` outcome.
-/

/-- The default trim set of `trimStringViewEnds`: space and tab. -/
def wsChars : List Char := [' ', '\t']

/-- Association-list lookup, modelling `unordered_map::find`. -/
def alookup {β : Type} : List (List Char × β) → List Char → Option β
  | [], _ => none
  | (k, v) :: t, key => if k = key then some v else alookup t key

/-- Association-list insert-or-assign, modelling `unordered_map::operator[] = v`. -/
def aset {β : Type} : List (List Char × β) → List Char → β → List (List Char × β)
  | [], key, val => [(key, val)]
  | (k, v) :: t, key, val => if k = key then (key, val) :: t else (k, v) :: aset t key val

/-- `ACFP::Section`: a map from field keys to raw string values. -/
structure Section where
  fields : List (List Char × List Char)
deriving DecidableEq

/-- The static empty `Section` returned for absent subsections. -/
def Section.emptyS : Section := ⟨[]⟩

/-- `Section::hasField`. -/
def Section.hasField (s : Section) (key : List Char) : Bool :=
  (alookup s.fields key).isSome

/-- `Section::getField`. -/
def Section.getField (s : Section) (key : List Char) : Option (List Char) :=
  alookup s.fields key

/-- `Section::setField`. -/
def Section.setField (s : Section) (key val : List Char) : Section :=
  ⟨aset s.fields key val⟩

/-- `ACFP::SectionGroup`: a map from subsection keys to Sections. -/
structure SectionGroup where
  sections : List (List Char × Section)
deriving DecidableEq

/-- The static empty `SectionGroup` returned for absent sections. -/
def SectionGroup.emptyG : SectionGroup := ⟨[]⟩

/-- `SectionGroup::hasSubsection`. -/
def SectionGroup.hasSubsection (g : SectionGroup) (key : List Char) : Bool :=
  (alookup g.sections key).isSome

/-- `SectionGroup::operator[] const` (also `getSubsection const`): absent keys
yield the empty Section. -/
def SectionGroup.getSubsection (g : SectionGroup) (key : List Char) : Section :=
  (alookup g.sections key).getD Section.emptyS

/-- `ACFP::ConfigTable`: a map from section keys to SectionGroups. -/
structure ConfigTable where
  groups : List (List Char × SectionGroup)
deriving DecidableEq

/-- The empty `ConfigTable`. -/
def ConfigTable.emptyT : ConfigTable := ⟨[]⟩

/-- `ConfigTable::hasSection`. -/
def ConfigTable.hasSection (t : ConfigTable) (key : List Char) : Bool :=
  (alookup t.groups key).isSome

/-- `ConfigTable::operator[] const` (also `getSection const`): absent keys
yield the empty SectionGroup. -/
def ConfigTable.getSection (t : ConfigTable) (key : List Char) : SectionGroup :=
  (alookup t.groups key).getD SectionGroup.emptyG

/-- Error of `Parser<bool>::parse` (`std::domain_error`). -/
inductive BoolErr where
  | notBool
deriving DecidableEq

/-- `ACFP::Parser<bool>::parse`: a switch over the first character. -/
def parseBool (sv : List Char) : Except BoolErr Bool :=
  match sv with
  | [] => .error .notBool
  | c :: _ =>
    if c = '0' ∨ c = 'f' ∨ c = 'n' ∨ c = 'F' ∨ c = 'N' then .ok false
    else if c = '1' ∨ c = 't' ∨ c = 'y' ∨ c = 'T' ∨ c = 'Y' then .ok true
    else .error .notBool

/-- Error codes of `std::from_chars` as surfaced by `Parser<T>::parse`
(`std::range_error` and `std::invalid_argument`). -/
inductive NumErr where
  | outOfRange
  | invalidArgument
deriving DecidableEq

/-- Decimal digit test, matching the digit class consumed by `std::from_chars`
in base 10. -/
def isDig (c : Char) : Bool := decide (48 ≤ c.toNat ∧ c.toNat ≤ 57)

/-- Value of a run of decimal digit characters. -/
def natOfDigits (ds : List Char) : Nat :=
  ds.foldl (fun a c => a * 10 + (c.toNat - 48)) 0

/-- `std::from_chars` over `[begin, end)` for an unsigned integer type with
maximum value `mx`, base 10: it consumes the longest digit run and reports
both the value and the first unconsumed position (here: the rest of the
input).  No digits consumed is `invalid_argument`; a digit run whose value
exceeds `mx` is `result_out_of_range`. -/
def fromCharsNat (mx : Nat) (sv : List Char) : Except NumErr (Nat × List Char) :=
  let ds := sv.takeWhile isDig
  if ds.isEmpty then .error .invalidArgument
  else if mx < natOfDigits ds then .error .outOfRange
  else .ok (natOfDigits ds, sv.dropWhile isDig)

/-- `ACFP::Parser<T>::parse` for an unsigned integral `T`: inspects only the
error code of `from_chars` and returns the value; the returned end pointer is
never compared with the end of the input. -/
def parseNum (mx : Nat) (sv : List Char) : Except NumErr Nat :=
  match fromCharsNat mx sv with
  | .error e => .error e
  | .ok (v, _) => .ok v

/-- The optional-chaining `ACFP::parse` overload: absent input short-circuits
to absent output without invoking the scalar parser. -/
def parseOpt {ε α : Type} (f : List Char → Except ε α) :
    Option (List Char) → Except ε (Option α)
  | none => .ok none
  | some sv => (f sv).map some

/-- `Section::getFieldAs<bool>`: `parse<bool>` composed with `getField`. -/
def Section.getFieldAsBool (s : Section) (key : List Char) : Except BoolErr (Option Bool) :=
  parseOpt parseBool (s.getField key)

/-- Loop of `string_view::find_first_not_of` starting at index `i`: first
index whose character is outside `set`. -/
def ffnoAux (set : List Char) : List Char → Nat → Option Nat
  | [], _ => none
  | c :: cs, i => if c ∈ set then ffnoAux set cs (i + 1) else some i

/-- Loop of `string_view::find_first_of` starting at index `i`: first index
whose character is inside `set`. -/
def ffoAux (set : List Char) : List Char → Nat → Option Nat
  | [], _ => none
  | c :: cs, i => if c ∈ set then some i else ffoAux set cs (i + 1)

/-- `ACFP::trimStringViewEnds`: drop a prefix up to the first character not in
`set` (when one exists), then drop a suffix after the last character not in
`set` (when one exists).  When every character is in `set`, both searches
report npos and the view is left unchanged. -/
def trimStringViewEnds (set sv : List Char) : List Char :=
  let sv1 := match ffnoAux set sv 0 with
    | none => sv
    | some i => sv.drop i
  match ffnoAux set sv1.reverse 0 with
  | none => sv1
  | some j => sv1.take (sv1.length - j)

/-- Loop of `ACFP::findFirstNotQuoted`, carrying the `quoted` and `escaped`
flags and the current index `p`. -/
def ffnqAux (ch : Char) : List Char → Bool → Bool → Nat → Option Nat
  | [], _, _, _ => none
  | c :: cs, quoted, escaped, p =>
    if c = '\\' then ffnqAux ch cs quoted (!escaped) (p + 1)
    else if c = '"' then ffnqAux ch cs (if escaped then quoted else !quoted) false (p + 1)
    else if c = ch then
      if !escaped && !quoted then some p
      else ffnqAux ch cs quoted escaped (p + 1)
    else ffnqAux ch cs quoted escaped (p + 1)

/-- `ACFP::findFirstNotQuoted`. -/
def findFirstNotQuoted (sv : List Char) (ch : Char) : Option Nat :=
  ffnqAux ch sv false false 0

/-- Bounds-checked indexing, modelling `sv[p]` together with the explicit
`sv.size() > p` guards of the source. -/
def nthc : List Char → Nat → Option Char
  | [], _ => none
  | c :: _, 0 => some c
  | _ :: t, n + 1 => nthc t n

/-- `ACFP::trimStringComment`: look only at the first occurrence of `'#'` or
`'/'`; truncate there when it is `'#'` or a `"//"` pair, otherwise leave the
view unchanged. -/
def trimStringComment (sv : List Char) : List Char :=
  match ffoAux ['#', '/'] sv 0 with
  | none => sv
  | some p =>
    if nthc sv p = some '#' then sv.take p
    else if nthc sv p = some '/' ∧ nthc sv (p + 1) = some '/' then sv.take p
    else sv

/-- Parse-time errors of `ACFP::parseConfigFile` and its helpers.
`malformed` and `unfinishedQuote` are the two `std::runtime_error` throws,
each carrying the line number as formatted and the offending text;
`oob` marks the undefined behaviour of `string_view::front()` on an empty
span in `trimStringQuotes`. -/
inductive PErr where
  | malformed (n : Nat) (content : List Char)
  | unfinishedQuote (n : Nat) (content : List Char)
  | oob
deriving DecidableEq

/-- `ACFP::trimStringQuotes`: if the first character equals `front`, drop it
and require the last character to equal `back`, dropping it too; otherwise
leave the span unchanged.  The source reads `sv.front()` without an emptiness
check, so an empty span is the `oob` outcome.  The `line_num` parameter has
type `uint16_t` in the source; the caller's narrowing conversion is modelled
at the call sites. -/
def trimStringQuotes (n : Nat) (front back : Char) (sv : List Char) :
    Except PErr (List Char) :=
  match sv with
  | [] => .error .oob
  | c :: rest =>
    if c = front then
      match rest.getLast? with
      | none => .error (.unfinishedQuote n rest)
      | some b =>
        if b = back then .ok rest.dropLast
        else .error (.unfinishedQuote n rest)
    else .ok (c :: rest)

/-- Builder state of `parseConfigFile`: the table built so far and the
`cur_section` cursor, modelled as the (section, subsection) key path it
points at. -/
structure PSt where
  table : ConfigTable
  cur : List Char × List Char
deriving DecidableEq

/-- The non-const `getSection(k).getSubsection(sub)` chain: `unordered_map`
`operator[]` default-constructs absent entries at both levels. -/
def ensurePath (t : ConfigTable) (k sub : List Char) : ConfigTable :=
  let g := (alookup t.groups k).getD SectionGroup.emptyG
  let s := (alookup g.sections sub).getD Section.emptyS
  ⟨aset t.groups k ⟨aset g.sections sub s⟩⟩

/-- `cur_section->setField(key, val)` written through the cursor path. -/
def setAtPath (t : ConfigTable) (k sub key val : List Char) : ConfigTable :=
  let g := (alookup t.groups k).getD SectionGroup.emptyG
  let s := (alookup g.sections sub).getD Section.emptyS
  ⟨aset t.groups k ⟨aset g.sections sub (s.setField key val)⟩⟩

/-- One iteration of the `parseConfigFile` loop on the raw line `raw` with
1-based line counter `n` (a `uint32_t` in the source, hence the
`% 4294967296` where it is formatted into an error; the narrowing to the
`uint16_t` parameter of `trimStringQuotes` is the `% 65536`). -/
def processLine (st : PSt) (n : Nat) (raw : List Char) : Except PErr PSt :=
  let line := trimStringComment (trimStringViewEnds wsChars raw)
  if line = [] then .ok st
  else if line.head? = some '[' then
    match trimStringQuotes (n % 65536) '[' ']' line with
    | .error e => .error e
    | .ok inner =>
      match findFirstNotQuoted inner ' ' with
      | none => .ok ⟨ensurePath st.table inner [], (inner, [])⟩
      | some sep =>
        match trimStringQuotes (n % 65536) '"' '"'
            (trimStringViewEnds wsChars (inner.take sep)) with
        | .error e => .error e
        | .ok name =>
          match trimStringQuotes (n % 65536) '"' '"'
              (trimStringViewEnds wsChars (inner.drop (sep + 1))) with
          | .error e => .error e
          | .ok sub => .ok ⟨ensurePath st.table name sub, (name, sub)⟩
  else
    match findFirstNotQuoted line '=' with
    | none => .error (.malformed (n % 4294967296) line)
    | some eq =>
      match trimStringQuotes (n % 65536) '"' '"'
          (trimStringViewEnds wsChars (line.take eq)) with
      | .error e => .error e
      | .ok key =>
        match trimStringQuotes (n % 65536) '"' '"'
            (trimStringViewEnds wsChars (line.drop (eq + 1))) with
        | .error e => .error e
        | .ok val => .ok ⟨setAtPath st.table st.cur.1 st.cur.2 key val, st.cur⟩

/-- Initial builder state: `ct.getSection("").getSubsection("")` creates the
empty-keyed path before any line is read. -/
def initSt : PSt := ⟨ensurePath ConfigTable.emptyT [] [], ([], [])⟩

/-- The `getline` loop of `parseConfigFile`, threading the 1-based line
counter. -/
def parseLinesAux : List (List Char) → Nat → PSt → Except PErr PSt
  | [], _, st => .ok st
  | l :: ls, n, st =>
    match processLine st n l with
    | .ok st' => parseLinesAux ls (n + 1) st'
    | .error e => .error e

/-- `ACFP::parseConfigFile` over an already-split sequence of lines. -/
def parseConfigFile (ls : List (List Char)) : Except PErr ConfigTable :=
  (parseLinesAux ls 1 initSt).map PSt.table

/-- Modelled from the claim's words (C2): truncate at the first unescaped
`'#'` or unescaped `"//"` occurring anywhere in the line, quote-blind, where
the escape flag set by a backslash is consumed by the single next
character.  Used only to compare the claimed behaviour with
`trimStringComment`. -/
def claimedCommentStripAux : List Char → Bool → List Char
  | [], _ => []
  | c :: cs, esc =>
    if esc then c :: claimedCommentStripAux cs false
    else if c = '\\' then c :: claimedCommentStripAux cs true
    else if c = '#' then []
    else if c = '/' then
      match cs with
      | '/' :: _ => []
      | _ => c :: claimedCommentStripAux cs false
    else c :: claimedCommentStripAux cs false

/-- Entry point of the claimed (spec-side) comment stripper for C2. -/
def claimedCommentStrip (sv : List Char) : List Char :=
  claimedCommentStripAux sv false

lemma alookup_aset {β : Type} (l : List (List Char × β)) (k : List Char) (v : β) :
    alookup (aset l k v) k = some v := by
  induction l with
  | nil => simp [aset, alookup]
  | cons h t ih =>
    obtain ⟨k', v'⟩ := h
    by_cases hk : k' = k
    · simp [aset, hk, alookup]
    · simp [aset, hk, alookup, ih]

lemma opt_none_of_isSome_false {α : Type} {o : Option α} (h : o.isSome = false) :
    o = none := by
  cases o with
  | none => rfl
  | some _ => simp [Option.isSome] at h

/-- Claim C9: within a Section, a field set then read back yields the value
just set, and setting the same key twice keeps only the last value. -/
theorem setField_getField_roundtrip (s : Section) (k v v2 : List Char) :
    (s.setField k v).getField k = some v ∧
    ((s.setField k v).setField k v2).getField k = some v2 := by
  constructor
  · exact alookup_aset s.fields k v
  · exact alookup_aset (aset s.fields k v) k v2

/-- Claim C6: lookups by absent key return the designated empty instance at
the section and subsection levels, `none` at the field level, a chained
three-level lookup through an absent section yields `none`, and a typed read
of an absent field yields `ok none` (no parser invocation, no failure). -/
theorem absent_lookup_defaults (t : ConfigTable) (g : SectionGroup) (s : Section)
    (k1 k2 k3 : List Char) :
    (t.hasSection k1 = false → t.getSection k1 = SectionGroup.emptyG) ∧
    (g.hasSubsection k2 = false → g.getSubsection k2 = Section.emptyS) ∧
    (s.hasField k3 = false → s.getField k3 = none) ∧
    (t.hasSection k1 = false →
      ((t.getSection k1).getSubsection k2).getField k3 = none) ∧
    (s.hasField k3 = false → s.getFieldAsBool k3 = .ok none) := by
  refine ⟨?_, ?_, ?_, ?_, ?_⟩
  · intro h
    rw [ConfigTable.getSection, opt_none_of_isSome_false h]
    rfl
  · intro h
    rw [SectionGroup.getSubsection, opt_none_of_isSome_false h]
    rfl
  · intro h
    exact opt_none_of_isSome_false h
  · intro h
    rw [ConfigTable.getSection, opt_none_of_isSome_false h]
    rfl
  · intro h
    rw [Section.getFieldAsBool, Section.getField, opt_none_of_isSome_false h]
    rfl

/-- Witness for C6 at a concrete absent three-level path. -/
theorem absent_lookup_defaults_wit :
    ((ConfigTable.emptyT.getSection ['x']).getSubsection ['y']).getField ['z'] = none :=
  (absent_lookup_defaults ConfigTable.emptyT SectionGroup.emptyG Section.emptyS
    ['x'] ['y'] ['z']).2.2.2.1 rfl

/-- Claim C8: the boolean parse is determined by the first character alone:
`0,f,n` (either case) give `false`, `1,t,y` (either case) give `true`, the
empty string and any other first character give the not-a-boolean error, and
the tail after the first character is ignored. -/
theorem parseBool_first_char (sv : List Char) :
    (∀ c rest, sv = c :: rest → parseBool sv = parseBool [c]) ∧
    (∀ c, sv.head? = some c → (c = '0' ∨ c = 'f' ∨ c = 'F' ∨ c = 'n' ∨ c = 'N') →
      parseBool sv = .ok false) ∧
    (∀ c, sv.head? = some c → (c = '1' ∨ c = 't' ∨ c = 'T' ∨ c = 'y' ∨ c = 'Y') →
      parseBool sv = .ok true) ∧
    (sv = [] → parseBool sv = .error .notBool) ∧
    (∀ c, sv.head? = some c →
      ¬(c = '0' ∨ c = 'f' ∨ c = 'F' ∨ c = 'n' ∨ c = 'N' ∨
        c = '1' ∨ c = 't' ∨ c = 'T' ∨ c = 'y' ∨ c = 'Y') →
      parseBool sv = .error .notBool) := by
  refine ⟨?_, ?_, ?_, ?_, ?_⟩
  · intro c rest hsv
    subst hsv
    rfl
  · intro c hc hcase
    cases sv with
    | nil => simp at hc
    | cons d t =>
      simp only [List.head?] at hc
      cases hc
      rcases hcase with h | h | h | h | h <;> subst h <;> rfl
  · intro c hc hcase
    cases sv with
    | nil => simp at hc
    | cons d t =>
      simp only [List.head?] at hc
      cases hc
      rcases hcase with h | h | h | h | h <;> subst h <;> rfl
  · intro h
    subst h
    rfl
  · intro c hc hcase
    cases sv with
    | nil => simp at hc
    | cons d t =>
      simp only [List.head?] at hc
      cases hc
      push_neg at hcase
      obtain ⟨h0, hf, hF, hn, hN, h1, ht, hT, hy, hY⟩ := hcase
      simp [parseBool, h0, hf, hF, hn, hN, h1, ht, hT, hy, hY]

/-- Witness for C8: a multi-character tail is ignored and decided by the
first character. -/
theorem parseBool_first_char_wit :
    parseBool ['y', 'e', 's'] = .ok true ∧ parseBool ['n', 'o', 'p', 'e'] = .ok false := by
  constructor
  · exact (parseBool_first_char ['y', 'e', 's']).2.2.1 'y' rfl (by decide)
  · exact (parseBool_first_char ['n', 'o', 'p', 'e']).2.1 'n' rfl (by decide)

/-- Claim C4: an empty line and a comment-only line (with or without leading
whitespace) are skipped with the table unchanged, but a whitespace-only line
is NOT: `find_first_not_of` returns npos on it, `trimStringViewEnds` removes
nothing, the line is then classified as a key/value line and the parse
aborts with a malformed-line error. -/
theorem boundary_line_behaviour :
    parseConfigFile [[]] = .ok initSt.table ∧
    parseConfigFile [['#', 'x']] = .ok initSt.table ∧
    parseConfigFile [[' ', '#', 'x']] = .ok initSt.table ∧
    parseConfigFile [[' ']] = .error (.malformed 1 [' ']) := by
  refine ⟨rfl, rfl, rfl, rfl⟩

/-- Claim C10: the empty value span of the line `k=` reaches
`trimStringQuotes`, whose unchecked `sv.front()` is an out-of-bounds read on
the empty span (undefined behaviour), modelled as the `oob` outcome. -/
theorem empty_value_oob_read :
    parseConfigFile [['k', '=']] = .error .oob ∧
    trimStringQuotes 1 '"' '"' [] = .error .oob := by
  refine ⟨rfl, rfl⟩

lemma takeWhile_dropWhile_split (p : Char → Bool) (ds rest : List Char)
    (hds : ∀ c ∈ ds, p c = true) (hrest : ∀ c ∈ rest.take 1, p c = false) :
    (ds ++ rest).takeWhile p = ds ∧ (ds ++ rest).dropWhile p = rest := by
  induction ds with
  | nil =>
    cases rest with
    | nil => simp
    | cons r t =>
      have hr : p r = false := hrest r (by simp)
      simp [List.takeWhile_cons, List.dropWhile_cons, hr]
  | cons d t ih =>
    have hd : p d = true := hds d (by simp)
    have ih' := ih (fun c hc => hds c (by simp [hc]))
    simp [List.takeWhile_cons, List.dropWhile_cons, hd, ih'.1, ih'.2]

/-- Claim C1 counterexample: the integer parse succeeds on `"123a"` even
though the character `'a'` is left unconsumed by the numeric grammar — the
error code is checked but the end pointer never is, so the truncated value
123 is returned instead of a failure. -/
theorem parseNum_trailing_cex :
    parseNum 4294967295 ['1', '2', '3', 'a'] = .ok 123 ∧
    fromCharsNat 4294967295 ['1', '2', '3', 'a'] = .ok (123, ['a']) := by
  refine ⟨rfl, rfl⟩

/-- Claim C1 amended: the integer parse does not require full consumption;
whenever the input begins with a nonempty digit run whose value is in range,
it succeeds with that run's value and ignores the trailing characters
(truncate, not reject). -/
theorem parseNum_longest_digit_run (mx : Nat) (ds rest : List Char)
    (hne : ds ≠ [])
    (hds : ∀ c ∈ ds, isDig c = true)
    (hrest : ∀ c ∈ rest.take 1, isDig c = false)
    (hmx : natOfDigits ds ≤ mx) :
    parseNum mx (ds ++ rest) = .ok (natOfDigits ds) := by
  obtain ⟨htw, hdw⟩ := takeWhile_dropWhile_split isDig ds rest hds hrest
  rw [parseNum, fromCharsNat]
  simp only [htw, hdw]
  rw [if_neg (by simpa [List.isEmpty_iff] using hne), if_neg (by omega)]

/-- Witness for the amended C1 at a concrete input with a trailing tail. -/
theorem parseNum_longest_digit_run_wit :
    parseNum 255 ['4', '2', 'x', 'y'] = .ok (natOfDigits ['4', '2']) :=
  parseNum_longest_digit_run 255 ['4', '2'] ['x', 'y']
    (by decide) (by decide) (by decide) (by decide)

lemma ffoAux_none (set : List Char) (sv : List Char) (i : Nat)
    (h : ∀ d ∈ sv, d ∉ set) : ffoAux set sv i = none := by
  induction sv generalizing i with
  | nil => rfl
  | cons c cs ih =>
    have hc : c ∉ set := h c (by simp)
    simp only [ffoAux, if_neg hc]
    exact ih (i + 1) (fun d hd => h d (by simp [hd]))

lemma ffoAux_found (set : List Char) (pre : List Char) (c : Char) (post : List Char)
    (i : Nat) (hpre : ∀ d ∈ pre, d ∉ set) (hc : c ∈ set) :
    ffoAux set (pre ++ c :: post) i = some (i + pre.length) := by
  induction pre generalizing i with
  | nil => simp [ffoAux, hc]
  | cons d t ih =>
    have hd : d ∉ set := hpre d (by simp)
    simp only [List.cons_append, ffoAux, if_neg hd, List.append_eq]
    rw [ih (i + 1) (fun x hx => hpre x (by simp [hx]))]
    congr 1
    simp
    omega

lemma nthc_append_len (pre : List Char) (c : Char) (post : List Char) :
    nthc (pre ++ c :: post) pre.length = some c := by
  induction pre with
  | nil => rfl
  | cons d t ih => simpa [nthc] using ih

lemma nthc_append_len_succ (pre : List Char) (c : Char) (post : List Char) :
    nthc (pre ++ c :: post) (pre.length + 1) = post.head? := by
  induction pre with
  | nil =>
    cases post <;> rfl
  | cons d t ih => simpa [nthc] using ih

lemma take_append_len (pre : List Char) (c : Char) (post : List Char) :
    (pre ++ c :: post).take pre.length = pre := by
  induction pre with
  | nil => rfl
  | cons d t ih => simp [List.take, ih]

/-- Claim C2 counterexample: the line `a/b#c` contains an unescaped `#`, so
the claimed behaviour truncates it to `a/b`, but the code only examines the
first `#`-or-`/` character — the lone `/` at index 1 — decides it is not a
comment, and leaves the whole line unchanged. -/
theorem trimStringComment_cex :
    trimStringComment ['a', '/', 'b', '#', 'c'] = ['a', '/', 'b', '#', 'c'] ∧
    claimedCommentStrip ['a', '/', 'b', '#', 'c'] = ['a', '/', 'b'] ∧
    trimStringComment ['a', '/', 'b', '#', 'c'] ≠
      claimedCommentStrip ['a', '/', 'b', '#', 'c'] := by
  refine ⟨rfl, rfl, by decide⟩

/-- Claim C2 amended: comment stripping looks only at the first occurrence of
`'#'` or `'/'` in the line, with no escape awareness and no quote awareness:
if that character is `'#'`, or is a `'/'` immediately followed by another
`'/'`, the line is truncated there; otherwise — including when a comment
marker occurs later, after an earlier lone `'/'` — the line is left
unchanged, as it is when neither character occurs at all. -/
theorem trimStringComment_first_hash_or_slash (sv pre : List Char) (c : Char)
    (post : List Char) (hsv : sv = pre ++ c :: post)
    (hpre : ∀ d ∈ pre, d ≠ '#' ∧ d ≠ '/') :
    (c = '#' → trimStringComment sv = pre) ∧
    (c = '/' → post.head? = some '/' → trimStringComment sv = pre) ∧
    (c = '/' → post.head? ≠ some '/' → trimStringComment sv = sv) ∧
    (∀ sv' : List Char, (∀ d ∈ sv', d ≠ '#' ∧ d ≠ '/') →
      trimStringComment sv' = sv') := by
  subst hsv
  have hpre' : ∀ d ∈ pre, d ∉ (['#', '/'] : List Char) := by
    intro d hd
    have := hpre d hd
    simp [this.1, this.2]
  refine ⟨?_, ?_, ?_, ?_⟩
  · intro hc
    subst hc
    rw [trimStringComment, ffoAux_found ['#', '/'] pre '#' post 0 hpre' (by simp)]
    simp only [Nat.zero_add]
    rw [if_pos (nthc_append_len pre '#' post), take_append_len]
  · intro hc hnext
    subst hc
    rw [trimStringComment, ffoAux_found ['#', '/'] pre '/' post 0 hpre' (by simp)]
    simp only [Nat.zero_add]
    rw [if_neg (by rw [nthc_append_len]; decide),
      if_pos ⟨nthc_append_len pre '/' post, by rw [nthc_append_len_succ]; exact hnext⟩,
      take_append_len]
  · intro hc hnext
    subst hc
    rw [trimStringComment, ffoAux_found ['#', '/'] pre '/' post 0 hpre' (by simp)]
    simp only [Nat.zero_add]
    rw [if_neg (by rw [nthc_append_len]; decide),
      if_neg (by rw [nthc_append_len, nthc_append_len_succ]; exact fun h => hnext h.2)]
  · intro sv' h
    have h' : ∀ d ∈ sv', d ∉ (['#', '/'] : List Char) := by
      intro d hd
      have := h d hd
      simp [this.1, this.2]
    rw [trimStringComment, ffoAux_none ['#', '/'] sv' 0 h']

/-- Witness for the amended C2: truncation at a leading `#`, at a `//` pair,
and a lone `/` leaving the line unchanged. -/
theorem trimStringComment_first_hash_or_slash_wit :
    trimStringComment ['a', 'b', '#', 'c'] = ['a', 'b'] ∧
    trimStringComment ['a', '/', '/', 'c'] = ['a'] ∧
    trimStringComment ['a', '/', 'b'] = ['a', '/', 'b'] := by
  refine ⟨?_, ?_, ?_⟩
  · exact (trimStringComment_first_hash_or_slash ['a', 'b', '#', 'c'] ['a', 'b'] '#' ['c']
      rfl (by decide)).1 rfl
  · exact (trimStringComment_first_hash_or_slash ['a', '/', '/', 'c'] ['a'] '/' ['/', 'c']
      rfl (by decide)).2.1 rfl rfl
  · exact (trimStringComment_first_hash_or_slash ['a', '/', 'b'] ['a'] '/' ['b']
      rfl (by decide)).2.2.1 rfl (by decide)

lemma ffnqAux_escaped_stuck (ch : Char) (cs : List Char) (q : Bool) (p : Nat)
    (h : ∀ c ∈ cs, c ≠ '\\' ∧ c ≠ '"') :
    ffnqAux ch cs q true p = none := by
  induction cs generalizing p with
  | nil => rfl
  | cons c t ih =>
    obtain ⟨hbs, hq⟩ := h c (by simp)
    have ht : ∀ c ∈ t, c ≠ '\\' ∧ c ≠ '"' := fun x hx => h x (by simp [hx])
    by_cases hc : c = ch
    · subst hc
      simp only [ffnqAux, if_neg hbs, if_neg hq]
      simp [ih (p + 1) ht]
    · simp only [ffnqAux, if_neg hbs, if_neg hq, if_neg hc]
      exact ih (p + 1) ht

/-- Claim C3 counterexample: in `\a=` searching for `=`, the escape flag set
by the backslash is not cleared by the ordinary character `a`, so the `=` two
positions after the backslash is NOT found — the search returns npos, not
index 2 as the claim states. -/
theorem findFirstNotQuoted_escape_cex :
    findFirstNotQuoted ['\\', 'a', '='] '=' = none ∧
    findFirstNotQuoted ['\\', 'a', '='] '=' ≠ some 2 := by
  refine ⟨rfl, by decide⟩

/-- Claim C3 amended: the escape flag set by a backslash persists across
ordinary characters (it is cleared only when a `"` is consumed, or toggled by
another backslash), so after a backslash followed only by characters other
than backslash and `"`, the target character is never found. -/
theorem findFirstNotQuoted_escape_persists (mid : List Char) (ch : Char)
    (hmid : ∀ c ∈ mid, c ≠ '\\' ∧ c ≠ '"') :
    findFirstNotQuoted ('\\' :: mid) ch = none := by
  rw [findFirstNotQuoted]
  simp only [ffnqAux, if_pos rfl, Bool.not_false]
  exact ffnqAux_escaped_stuck ch mid false 1 hmid

/-- Witness for the amended C3 at a concrete input. -/
theorem findFirstNotQuoted_escape_persists_wit :
    findFirstNotQuoted ['\\', 'x', 'q'] 'q' = none :=
  findFirstNotQuoted_escape_persists ['x', 'q'] 'q' (by decide)

lemma trimStringComment_noop (sv : List Char)
    (h : ∀ d ∈ sv, d ≠ '#' ∧ d ≠ '/') : trimStringComment sv = sv := by
  have h' : ∀ d ∈ sv, d ∉ (['#', '/'] : List Char) := by
    intro d hd
    have := h d hd
    simp [this.1, this.2]
  rw [trimStringComment, ffoAux_none ['#', '/'] sv 0 h']

lemma trimStringViewEnds_noop (c b : Char) (mid : List Char)
    (hc : c ∉ wsChars) (hb : b ∉ wsChars) :
    trimStringViewEnds wsChars (c :: mid ++ [b]) = c :: mid ++ [b] := by
  have h1 : ffnoAux wsChars (c :: mid ++ [b]) 0 = some 0 := by
    simp [ffnoAux, hc]
  have h2 : (c :: mid ++ [b]).reverse = b :: (mid.reverse ++ [c]) := by
    simp
  have h3 : ffnoAux wsChars (b :: (mid.reverse ++ [c])) 0 = some 0 := by
    simp [ffnoAux, hb]
  rw [trimStringViewEnds]
  simp only [h1, List.drop_zero, h2, h3, Nat.sub_zero, List.take_length]

/-- Claim C5 counterexample: in the header `["a"<TAB>]` no unquoted space is
found, and the singleton branch uses the raw bracket interior `"a"<TAB>` —
neither trimmed nor quote-stripped — as the section name, so a following
key/value lands under the section named `"a"<TAB>` (quotes and tab
included) and not under `a`. -/
theorem singleton_section_raw_name_cex :
    (parseConfigFile [['[', '"', 'a', '"', '\t', ']'], ['k', '=', 'v']]).map
      (fun t => ((t.getSection ['"', 'a', '"', '\t']).getSubsection []).getField ['k']) =
      .ok (some ['v']) ∧
    (parseConfigFile [['[', '"', 'a', '"', '\t', ']'], ['k', '=', 'v']]).map
      (fun t => ((t.getSection ['a']).getSubsection []).getField ['k']) = .ok none := by
  refine ⟨rfl, rfl⟩

/-- Claim C5 amended: when no unquoted, unescaped space separator is found
inside the brackets, the whole bracket-interior text is used verbatim as the
section name — with no additional trimming and no quote stripping — and the
subsection key is the empty string. -/
theorem processLine_singleton_header (interior : List Char) (tbl : ConfigTable)
    (cur : List Char × List Char) (n : Nat)
    (hno : ∀ d ∈ interior, d ≠ '#' ∧ d ≠ '/')
    (hsp : findFirstNotQuoted interior ' ' = none) :
    processLine ⟨tbl, cur⟩ n ('[' :: interior ++ [']']) =
      .ok ⟨ensurePath tbl interior [], (interior, [])⟩ := by
  have hline : ∀ d ∈ ('[' :: interior ++ [']'] : List Char), d ≠ '#' ∧ d ≠ '/' := by
    intro d hd
    simp only [List.cons_append, List.mem_cons, List.mem_append, List.mem_singleton] at hd
    rcases hd with h | h | h
    · subst h; exact ⟨by decide, by decide⟩
    · exact hno d h
    · rcases h with h | h
      · subst h; exact ⟨by decide, by decide⟩
      · simp at h
  have htrim : trimStringViewEnds wsChars ('[' :: interior ++ [']']) =
      '[' :: interior ++ [']'] :=
    trimStringViewEnds_noop '[' ']' interior (by decide) (by decide)
  have hcmt : trimStringComment ('[' :: interior ++ [']']) = '[' :: interior ++ [']'] :=
    trimStringComment_noop _ hline
  have htq : trimStringQuotes (n % 65536) '[' ']' ('[' :: interior ++ [']']) =
      .ok interior := by
    simp [trimStringQuotes, List.getLast?_concat, List.dropLast_concat]
  rw [processLine]
  simp only [htrim, hcmt]
  rw [if_neg (by simp), if_pos (by simp)]
  simp only [htq]
  rw [hsp]

/-- Witness for the amended C5: a quoted, tab-bearing interior is used
verbatim as the section name. -/
theorem processLine_singleton_header_wit :
    processLine ⟨ConfigTable.emptyT, ([], [])⟩ 1 ['[', '"', 'a', '"', '\t', ']'] =
      .ok ⟨ensurePath ConfigTable.emptyT ['"', 'a', '"', '\t'] [],
        (['"', 'a', '"', '\t'], [])⟩ :=
  processLine_singleton_header ['"', 'a', '"', '\t'] ConfigTable.emptyT ([], []) 1
    (by decide) (by decide)

lemma trimStringQuotes_err (n : Nat) (front back : Char) (sv : List Char) (e : PErr)
    (h : trimStringQuotes n front back sv = .error e) :
    e = .oob ∨ ∃ r, e = .unfinishedQuote n r := by
  cases sv with
  | nil =>
    simp only [trimStringQuotes] at h
    exact Or.inl (Except.error.inj h).symm
  | cons c rest =>
    simp only [trimStringQuotes] at h
    split at h
    · split at h
      · exact Or.inr ⟨rest, (Except.error.inj h).symm⟩
      · split at h
        · exact absurd h (by simp)
        · exact Or.inr ⟨rest, (Except.error.inj h).symm⟩
    · exact absurd h (by simp)

lemma processLine_err (st : PSt) (n : Nat) (l : List Char) (e : PErr)
    (h : processLine st n l = .error e) :
    (∀ m c, e = .malformed m c → m = n % 4294967296) ∧
    (∀ m c, e = .unfinishedQuote m c → m = n % 65536) := by
  rw [processLine] at h
  split at h
  · exact absurd h (by simp)
  · split at h
    · split at h
      · rename_i e' he
        cases h
        rcases trimStringQuotes_err _ _ _ _ _ he with hc | ⟨r, hc⟩ <;> subst hc
        · exact ⟨(by intro m c hm; cases hm), (by intro m c hm; cases hm)⟩
        · exact ⟨(by intro m c hm; cases hm), (by intro m c hm; cases hm; rfl)⟩
      · split at h
        · exact absurd h (by simp)
        · split at h
          · rename_i e' he
            cases h
            rcases trimStringQuotes_err _ _ _ _ _ he with hc | ⟨r, hc⟩ <;> subst hc
            · exact ⟨(by intro m c hm; cases hm), (by intro m c hm; cases hm)⟩
            · exact ⟨(by intro m c hm; cases hm), (by intro m c hm; cases hm; rfl)⟩
          · split at h
            · rename_i e' he
              cases h
              rcases trimStringQuotes_err _ _ _ _ _ he with hc | ⟨r, hc⟩ <;> subst hc
              · exact ⟨(by intro m c hm; cases hm), (by intro m c hm; cases hm)⟩
              · exact ⟨(by intro m c hm; cases hm), (by intro m c hm; cases hm; rfl)⟩
            · exact absurd h (by simp)
    · split at h
      · cases h
        exact ⟨(by intro m c hm; cases hm; rfl), (by intro m c hm; cases hm)⟩
      · split at h
        · rename_i e' he
          cases h
          rcases trimStringQuotes_err _ _ _ _ _ he with hc | ⟨r, hc⟩ <;> subst hc
          · exact ⟨(by intro m c hm; cases hm), (by intro m c hm; cases hm)⟩
          · exact ⟨(by intro m c hm; cases hm), (by intro m c hm; cases hm; rfl)⟩
        · split at h
          · rename_i e' he
            cases h
            rcases trimStringQuotes_err _ _ _ _ _ he with hc | ⟨r, hc⟩ <;> subst hc
            · exact ⟨(by intro m c hm; cases hm), (by intro m c hm; cases hm)⟩
            · exact ⟨(by intro m c hm; cases hm), (by intro m c hm; cases hm; rfl)⟩
          · exact absurd h (by simp)

lemma processLine_nil (st : PSt) (n : Nat) : processLine st n [] = .ok st := rfl

lemma parseLinesAux_append (pre rest : List (List Char)) (n : Nat) (st st' : PSt)
    (h : parseLinesAux pre n st = .ok st') :
    parseLinesAux (pre ++ rest) n st = parseLinesAux rest (n + pre.length) st' := by
  induction pre generalizing n st with
  | nil =>
    simp only [parseLinesAux] at h
    cases h
    simp [parseLinesAux]
  | cons l ls ih =>
    simp only [parseLinesAux, List.cons_append] at h ⊢
    cases hp : processLine st n l with
    | ok st2 =>
      rw [hp] at h
      replace h : parseLinesAux ls (n + 1) st2 = .ok st' := h
      show parseLinesAux (ls ++ rest) (n + 1) st2 = parseLinesAux rest (n + (l :: ls).length) st'
      rw [ih (n + 1) st2 h]
      congr 1
      simp
      omega
    | error e =>
      rw [hp] at h
      exact absurd h (by simp)

lemma parseLinesAux_replicate_nil (k n : Nat) (st : PSt) :
    parseLinesAux (List.replicate k []) n st = .ok st := by
  induction k generalizing n with
  | zero => rfl
  | succ k ih =>
    rw [List.replicate_succ]
    show (match processLine st n [] with
      | .ok st' => parseLinesAux (List.replicate k []) (n + 1) st'
      | .error e => .error e) = .ok st
    rw [processLine_nil]
    exact ih (n + 1)

/-- Claim C7 counterexample: the line counter is a 32-bit value but
`trimStringQuotes` receives it through a 16-bit parameter, so the
unterminated-quote error raised by the header `[a` on line 65537 reports
line 1, not the actual 1-based position 65537. -/
theorem parse_line_number_truncated_cex :
    parseConfigFile (List.replicate 65536 [] ++ [['[', 'a']]) =
      .error (.unfinishedQuote 1 ['a']) ∧
    (List.replicate 65536 ([] : List Char) ++ [['[', 'a']]).length = 65537 ∧
    (65537 : Nat) ≠ 1 := by
  refine ⟨?_, (by rw [List.length_append, List.length_replicate]; rfl), (by decide)⟩
  rw [parseConfigFile,
    parseLinesAux_append (List.replicate 65536 []) [['[', 'a']] 1 initSt initSt
      (parseLinesAux_replicate_nil 65536 1 initSt)]
  simp only [List.length_replicate]
  rfl

/-- Claim C7 amended: an error raised while processing the line at 1-based
position `p` is propagated unchanged to the caller and carries `p` reduced
modulo the width of the integer that transported it: modulo 2^32 (the
`uint32_t` loop counter) for malformed-line errors, and modulo 2^16 (the
`uint16_t` parameter of `trimStringQuotes`) for unterminated-quote errors;
the number is verbatim only while `p` is below those bounds. -/
theorem error_line_numbers (pre : List (List Char)) (l : List Char)
    (post : List (List Char)) (st : PSt) (e : PErr)
    (hpre : parseLinesAux pre 1 initSt = .ok st)
    (hl : processLine st (pre.length + 1) l = .error e) :
    parseConfigFile (pre ++ l :: post) = .error e ∧
    (∀ m c, e = .malformed m c → m = (pre.length + 1) % 4294967296) ∧
    (∀ m c, e = .unfinishedQuote m c → m = (pre.length + 1) % 65536) := by
  refine ⟨?_, processLine_err st (pre.length + 1) l e hl⟩
  have hl' : processLine st (1 + pre.length) l = .error e := by
    rwa [Nat.add_comm]
  rw [parseConfigFile, parseLinesAux_append pre (l :: post) 1 initSt st hpre]
  simp only [parseLinesAux, hl']
  rfl

/-- Witness for the amended C7: a malformed first line reports line 1. -/
theorem error_line_numbers_wit :
    parseConfigFile [['b']] = .error (.malformed 1 ['b']) :=
  (error_line_numbers [] ['b'] [] initSt (.malformed 1 ['b']) rfl rfl).1
